import Mathlib

/-!
Formal model of the invoice consolidation pipeline implemented in
`invoice_processor.py`: loading and splitting the PDF into per-page records,
ingesting the classifier output for each page, merging multi-page invoices,
deduplicating repeated invoices, and rendering the markdown report.

Python scalar dict values are modelled by `PyVal`: an absent key (what
`dict.get` turns into `None`) is `PyVal.vnone`, strings are `PyVal.vstr`,
and numeric JSON values are modelled by integers as `PyVal.vnum`.
Fallible Python code (functions that can raise) is modelled with
`Except String`.
-/

/-- A Python scalar value as it appears in the parsed classifier JSON:
absent/None, a string, or a number (modelled by an integer). -/
inductive PyVal where
  | vnone
  | vstr (s : String)
  | vnum (n : Int)
  deriving DecidableEq, Repr

/-- Python truthiness of a scalar value: `None`, the empty string and `0`
are falsy, everything else is truthy. -/
def pyTruthy : PyVal → Bool
  | .vnone => false
  | .vstr s => !(s == "")
  | .vnum n => !(n == 0)

/-- Python `str(v)` for the scalar values of the model. -/
def pyStr : PyVal → String
  | .vnone => "None"
  | .vstr s => s
  | .vnum n => toString n

/-- Python `d.get(k, default)`: the default replaces an absent value. -/
def pyGetD (v d : PyVal) : PyVal :=
  if v = .vnone then d else v

/-- One line item of an invoice; every field is optional in the JSON. -/
structure LineItem where
  description : PyVal := .vnone
  hsn_sac : PyVal := .vnone
  quantity : PyVal := .vnone
  rate : PyVal := .vnone
  unit : PyVal := .vnone
  amount : PyVal := .vnone
  deriving DecidableEq, Repr

/-- One entry of the tax breakdown mapping: either a dict with a rate and
an amount, or some other JSON value (the formatter checks `isinstance`). -/
inductive TaxVal where
  | tdict (rate : PyVal) (amount : PyVal)
  | tother
  deriving DecidableEq, Repr

/-- A page-level extracted invoice record (the parsed classifier JSON dict
of type `invoice`, plus the `source_page` tag added during extraction). -/
structure Invoice where
  invoice_num : PyVal := .vnone
  invoice_date : PyVal := .vnone
  vendor_name : PyVal := .vnone
  vendor_gstin : PyVal := .vnone
  buyer_name : PyVal := .vnone
  buyer_gstin : PyVal := .vnone
  line_items : List LineItem := []
  subtotal : PyVal := .vnone
  tax_breakdown : List (String × TaxVal) := []
  total : PyVal := .vnone
  source_page : Nat := 0
  deriving DecidableEq, Repr

/-- The merge grouping key `(invoice_num, vendor_name, invoice_date)`. -/
abbrev InvKey := PyVal × PyVal × PyVal

/-- The dedup key `(invoice_num, vendor_name, invoice_date, total)`. -/
abbrev DKey := PyVal × PyVal × PyVal × PyVal

/-- The grouping key used by `merge_multipage_invoices`. -/
def invKey (inv : Invoice) : InvKey :=
  (inv.invoice_num, inv.vendor_name, inv.invoice_date)

/-- The structural line-item key `(description, hsn_sac, quantity, rate)`. -/
def itemKey (it : LineItem) : DKey :=
  (it.description, it.hsn_sac, it.quantity, it.rate)

/-- The stricter key used by `deduplicate_invoices`. -/
def dedupKey (inv : Invoice) : DKey :=
  (inv.invoice_num, inv.vendor_name, inv.invoice_date, inv.total)

/-- The seen-set loop shared by the line-item dedup inside
`merge_multipage_invoices` and by `deduplicate_invoices`: keep an element
when its key is not in `seen`, record the kept key, drop otherwise. -/
def dedupByKeyAux {α κ : Type} [DecidableEq κ] (key : α → κ) (seen : List κ) :
    List α → List α
  | [] => []
  | x :: xs =>
    if key x ∈ seen then dedupByKeyAux key seen xs
    else x :: dedupByKeyAux key (key x :: seen) xs

/-- Specification-worded first-occurrence filter: an element is kept exactly
when its key differs from the key of every earlier element; `prev` holds the
keys of all elements already passed. -/
def keepFirstAux {α κ : Type} [DecidableEq κ] (key : α → κ) (prev : List κ) :
    List α → List α
  | [] => []
  | x :: xs =>
    if key x ∈ prev then keepFirstAux key (prev ++ [key x]) xs
    else x :: keepFirstAux key (prev ++ [key x]) xs

/-- Keep the first element for each key, in order. -/
def keepFirstByKey {α κ : Type} [DecidableEq κ] (key : α → κ) (l : List α) :
    List α :=
  keepFirstAux key [] l

/-- Append `inv` to the group of key `k`, creating the group at the end when
the key is new: the behaviour of `grouped[key].append(inv)` on a
`defaultdict` given the insertion order of Python dicts. -/
def addToGroup (g : List (InvKey × List Invoice)) (k : InvKey) (inv : Invoice) :
    List (InvKey × List Invoice) :=
  match g with
  | [] => [(k, [inv])]
  | (k0, l0) :: rest =>
    if k0 = k then (k0, l0 ++ [inv]) :: rest
    else (k0, l0) :: addToGroup rest k inv

/-- The grouping loop of `merge_multipage_invoices`: group the input records
by `invKey`, keys in first-seen order, members in input order. -/
def groupByKey (invs : List Invoice) : List (InvKey × List Invoice) :=
  invs.foldl (fun g inv => addToGroup g (invKey inv) inv) []

/-- Python `d[k] = v` on an association list: replace in place when the key
exists, append otherwise. -/
def setKey (d : List (String × TaxVal)) (k : String) (v : TaxVal) :
    List (String × TaxVal) :=
  match d with
  | [] => [(k, v)]
  | (k0, v0) :: rest =>
    if k0 = k then (k0, v) :: rest else (k0, v0) :: setKey rest k v

/-- Python `d.update(e)`: key-wise union, the entries of `e` win. -/
def dictUpdate (d e : List (String × TaxVal)) : List (String × TaxVal) :=
  e.foldl (fun acc kv => setKey acc kv.1 kv.2) d

/-- Merge the pages of one group, as the per-group body of
`merge_multipage_invoices`: the merged record is a copy of the first page;
line items are the concatenation over pages (then deduplicated by
`itemKey`); the tax breakdown is the key-wise union with later pages
winning; `subtotal` and `total` are overwritten by each truthy page value
in page order. -/
def mergeGroup : List Invoice → Invoice
  | [] => {}
  | p0 :: rest =>
    let pages := p0 :: rest
    let items := pages.foldl (fun acc p => acc ++ p.line_items) []
    let tax := pages.foldl
      (fun acc p =>
        if p.tax_breakdown ≠ [] then dictUpdate acc p.tax_breakdown else acc) []
    let st := pages.foldl
      (fun a p => if pyTruthy p.subtotal then p.subtotal else a) p0.subtotal
    let tot := pages.foldl
      (fun a p => if pyTruthy p.total then p.total else a) p0.total
    { p0 with
      line_items := dedupByKeyAux itemKey [] items
      tax_breakdown := tax
      subtotal := st
      total := tot }

/-- Stage 3.1 of `invoice_processor.py`: merge invoices that span multiple
pages, one merged record per group, in first-seen key order. -/
def merge_multipage_invoices (extracted : List Invoice) : List Invoice :=
  (groupByKey extracted).map (fun g => mergeGroup g.2)

/-- The loop of `deduplicate_invoices`, carrying the seen-key set, the
output list and the duplicate counter. -/
def dedupLoop (seen : List DKey) (acc : List Invoice) (cnt : Nat) :
    List Invoice → List Invoice × Nat
  | [] => (acc, cnt)
  | inv :: rest =>
    if dedupKey inv ∈ seen then dedupLoop seen acc (cnt + 1) rest
    else dedupLoop (dedupKey inv :: seen) (acc ++ [inv]) cnt rest

/-- Stage 3.2 of `invoice_processor.py`: drop every invoice whose
`dedupKey` was already seen. -/
def deduplicate_invoices (l : List Invoice) : List Invoice :=
  (dedupLoop [] [] 0 l).1

/-- The diagnostic duplicate counter printed by `deduplicate_invoices`. -/
def duplicates_count (l : List Invoice) : Nat :=
  (dedupLoop [] [] 0 l).2

/-- The raw material of one page of the source document: either the page
renders to an image (with optionally extracted text, `page.extract_text()`
may return `None`), or rendering it raises. -/
inductive PageSource where
  | good (image : String) (text : Option String)
  | bad
  deriving DecidableEq, Repr

/-- The source document: either opening it raises, or it yields an ordered
list of pages. -/
inductive PdfSource where
  | openFail
  | pages (l : List PageSource)
  deriving DecidableEq, Repr

/-- The per-page record produced by `load_and_split_pdf`. -/
structure PageData where
  page_num : Nat
  image_base64 : String
  text : String
  deriving DecidableEq, Repr

/-- The message of the pipeline-fatal error raised when the document cannot
be opened. -/
def loadFailMsg : String := "Failed to load PDF"

/-- The page loop of `load_and_split_pdf`: a page that renders is appended
with its 1-based page number, a page whose rendering raises is skipped. -/
def loadPagesLoop (acc : List PageData) (idx : Nat) :
    List PageSource → List PageData
  | [] => acc
  | .good img txt :: rest =>
      loadPagesLoop (acc ++ [⟨idx + 1, img, txt.getD ""⟩]) (idx + 1) rest
  | .bad :: rest => loadPagesLoop acc (idx + 1) rest

/-- Stage 1 of `invoice_processor.py`: open the document (raising when that
fails) and convert each renderable page to a page record. -/
def load_and_split_pdf : PdfSource → Except String (List PageData)
  | .openFail => .error loadFailMsg
  | .pages l => .ok (loadPagesLoop [] 0 l)

/-- Specification-worded loading result: the page at 0-based position `idx`
is kept with page number `idx + 1` exactly when it renders. -/
def pageDataAt (idx : Nat) : PageSource → Option PageData
  | .good img txt => some ⟨idx + 1, img, txt.getD ""⟩
  | .bad => none

/-- Specification-worded loading result: a failing page is excluded and
loading continues with the remaining pages, page numbers following the
original positions. -/
def goodPagesFrom (idx : Nat) : List PageSource → List PageData
  | [] => []
  | p :: rest =>
    match pageDataAt idx p with
    | some d => d :: goodPagesFrom (idx + 1) rest
    | none => goodPagesFrom (idx + 1) rest

/-- The possible outcomes of one classifier call, as seen by `call_ollama`:
a connection error, any other transport or HTTP error, a response body that
is not parseable JSON, a body that parses to a non-dict JSON value, or a
body that parses to a JSON dict with an optional `type` entry and the
invoice-shaped fields. -/
inductive ClassifierOutput where
  | connError
  | otherError
  | notJson
  | jsonNonDict
  | jsonDict (typ : Option String) (inv : Invoice)
  deriving DecidableEq, Repr

/-- The Python value returned by `call_ollama`: the parsed dict (with its
`type` entry) or a non-dict JSON value. -/
inductive PyObj where
  | obj (typ : Option String) (inv : Invoice)
  | nonDict
  deriving DecidableEq, Repr

/-- The literal fallback value returned on malformed output. -/
def nonInvoiceObj : PyObj := .obj (some "non_invoice") {}

/-- The message of the error raised on a classifier connection failure. -/
def connErrMsg : String := "Could not connect to Ollama"

/-- The message of the AttributeError raised when the parsed response is
not a dict and `.get` is called on it. -/
def attrErrMsg : String := "AttributeError: object has no attribute get"

/-- Stage 2 helper of `invoice_processor.py`: translate one classifier
outcome; a connection error raises, a JSON decode error and every other
per-call error fall back to the non-invoice marker, a successful parse is
returned as is. -/
def call_ollama : ClassifierOutput → Except String PyObj
  | .connError => .error connErrMsg
  | .otherError => .ok nonInvoiceObj
  | .notJson => .ok nonInvoiceObj
  | .jsonNonDict => .ok .nonDict
  | .jsonDict t inv => .ok (.obj t inv)

/-- Stage 2 of `invoice_processor.py`: call the classifier on every page in
order; a record of type `invoice` is kept (tagged with its source page),
anything else is skipped. Reading `type` from a non-dict value raises. -/
def extract_invoices_from_pages (classify : String → String → ClassifierOutput) :
    List PageData → Except String (List Invoice)
  | [] => .ok []
  | pg :: rest =>
    match call_ollama (classify pg.image_base64 pg.text) with
    | .error e => .error e
    | .ok .nonDict => .error attrErrMsg
    | .ok (.obj t inv) =>
      if t = some "invoice" then
        match extract_invoices_from_pages classify rest with
        | .error e => .error e
        | .ok tl => .ok ({ inv with source_page := pg.page_num } :: tl)
      else extract_invoices_from_pages classify rest

/-- Accumulate the digits of a decimal literal, failing on any non-digit. -/
def digitsToNatAux (acc : Nat) : List Char → Option Nat
  | [] => some acc
  | c :: cs =>
    if c.isDigit then digitsToNatAux (acc * 10 + (c.toNat - 48)) cs else none

/-- Model of Python `float(s)` restricted to the integer-valued strings of
the model: an optional sign followed by at least one digit; every other
string fails to coerce. -/
def parsePyNumber (s : String) : Option Int :=
  match s.data with
  | [] => none
  | '-' :: cs =>
    match cs with
    | [] => none
    | _ => (digitsToNatAux 0 cs).map (fun n => -(n : Int))
  | '+' :: cs =>
    match cs with
    | [] => none
    | _ => (digitsToNatAux 0 cs).map (fun n => (n : Int))
  | cs => (digitsToNatAux 0 cs).map (fun n => (n : Int))

/-- Numeric coercion of a scalar value, the model of `float(v)`: numbers
coerce to themselves, strings coerce when they are numeric literals, `None`
never coerces. -/
def pyFloatOfVal : PyVal → Option Int
  | .vnum n => some n
  | .vstr s => parsePyNumber s
  | .vnone => none

/-- Insert a comma after every third digit; the input and output lists hold
the digits least-significant first. -/
def groupThrees : List Char → List Char
  | [] => []
  | [a] => [a]
  | [a, b] => [a, b]
  | [a, b, c] => [a, b, c]
  | a :: b :: c :: rest => a :: b :: c :: ',' :: groupThrees rest

/-- Format a natural number with thousands separators. -/
def commaFmtNat (n : Nat) : String :=
  String.mk ((groupThrees (toString n).data.reverse).reverse)

/-- Model of the Python format spec `\x7bx:,.2f\x7d` on the integer-valued
numbers of the model: thousands separators and two decimal places. -/
def fmtMoney (n : Int) : String :=
  (if n < 0 then "-" else "") ++ commaFmtNat n.natAbs ++ ".00"

/-- The amount cell of a line-item row: coerce and format the amount, or
fall back to its raw string representation when coercion fails. -/
def amountCell (v : PyVal) : String :=
  match pyFloatOfVal v with
  | some n => fmtMoney n
  | none => pyStr v

/-- A currency-formatted monetary field of the summary block, with the same
raw-string fallback when coercion fails. -/
def rupeeCell (v : PyVal) : String :=
  match pyFloatOfVal v with
  | some n => "₹" ++ fmtMoney n
  | none => "₹" ++ pyStr v

/-- The table-delimiter substitution applied to one character of the
description. -/
def substPipeChar (c : Char) : Char :=
  if c = '|' then '/' else c

/-- The description transformation of `format_as_markdown`: substitute the
table delimiter and truncate to 50 characters. -/
def descTransform (s : String) : String :=
  String.mk ((s.data.map substPipeChar).take 50)

/-- The message of the AttributeError raised when `.replace` is called on a
non-string description value. -/
def replaceErrMsg : String := "AttributeError: object has no attribute replace"

/-- The description cell: an absent description defaults to the empty
string, a string is substituted and truncated, a number raises (Python
calls `.replace` on it). -/
def descCell : PyVal → Except String String
  | .vstr s => .ok (descTransform s)
  | .vnone => .ok (descTransform "")
  | .vnum _ => .error replaceErrMsg

/-- One row of the line-item table. -/
def fmtLineItem (it : LineItem) : Except String String :=
  match descCell it.description with
  | .error e => .error e
  | .ok d =>
    .ok ("| " ++ d ++ " | " ++ pyStr (pyGetD it.hsn_sac (.vstr "")) ++ " | " ++
      pyStr (pyGetD it.quantity (.vnum 0)) ++ " | " ++
      pyStr (pyGetD it.rate (.vnum 0)) ++ " | " ++
      pyStr (pyGetD it.unit (.vstr "")) ++ " | " ++
      amountCell (pyGetD it.amount (.vnum 0)) ++ " |\n")

/-- All rows of the line-item table, in order; the first raising row
aborts. -/
def fmtRows : List LineItem → Except String String
  | [] => .ok ""
  | it :: rest =>
    match fmtLineItem it, fmtRows rest with
    | .ok r, .ok rs => .ok (r ++ rs)
    | .error e, _ => .error e
    | _, .error e => .error e

/-- One tax-breakdown line: only dict-shaped entries are rendered, the code
uppercased, with the coercion fallback on the amount. -/
def fmtTaxLine (k : String) (tv : TaxVal) : String :=
  match tv with
  | .tdict r a =>
    "**" ++ k.toUpper ++ " (" ++ pyStr (pyGetD r (.vstr "0%")) ++ ")**: " ++
      rupeeCell (pyGetD a (.vnum 0)) ++ "\n"
  | .tother => ""

/-- All tax-breakdown lines, in mapping order. -/
def fmtTaxLines : List (String × TaxVal) → String
  | [] => ""
  | (k, tv) :: rest => fmtTaxLine k tv ++ fmtTaxLines rest

/-- A header field: absent values render as `N/A`. -/
def naCell (v : PyVal) : String :=
  pyStr (pyGetD v (.vstr "N/A"))

/-- The report section of one invoice: header, identity block, line-item
table (only when there are line items), subtotal, tax lines, total,
separator. -/
def fmtInvoice (inv : Invoice) : Except String String :=
  let header := "## Invoice #" ++ naCell inv.invoice_num ++ " | " ++
    naCell inv.vendor_name ++ " | " ++ naCell inv.invoice_date ++ "\n\n" ++
    "**Vendor**: " ++ naCell inv.vendor_name ++ " (GSTIN: " ++
    naCell inv.vendor_gstin ++ ")\n" ++
    "**Buyer**: " ++ naCell inv.buyer_name ++ " (GSTIN: " ++
    naCell inv.buyer_gstin ++ ")\n\n"
  let tableHdr := "| Description | HSN/SAC | Qty | Rate | Unit | Amount |\n" ++
    "|---|---|---|---|---|---|\n"
  let table : Except String String :=
    if inv.line_items = [] then .ok ""
    else
      match fmtRows inv.line_items with
      | .ok rows => .ok (tableHdr ++ rows ++ "\n")
      | .error e => .error e
  match table with
  | .error e => .error e
  | .ok tbl =>
    .ok (header ++ tbl ++
      "**Subtotal**: " ++ rupeeCell (pyGetD inv.subtotal (.vnum 0)) ++ "\n" ++
      fmtTaxLines inv.tax_breakdown ++
      "\n**Total**: " ++ rupeeCell (pyGetD inv.total (.vnum 0)) ++ "\n\n" ++
      "---\n\n")

/-- Stage 4 of `invoice_processor.py`: render the report of every invoice,
in order. -/
def format_as_markdown : List Invoice → Except String String
  | [] => .ok ""
  | inv :: rest =>
    match fmtInvoice inv, format_as_markdown rest with
    | .ok a, .ok b => .ok (a ++ b)
    | .error e, _ => .error e
    | _, .error e => .error e

/-- The main pipeline of `invoice_processor.py`: load, extract, merge,
deduplicate, format; any raised error propagates to the caller. -/
def process_invoice_pdf (src : PdfSource)
    (classify : String → String → ClassifierOutput) :
    Except String (List Invoice × String) :=
  match load_and_split_pdf src with
  | .error e => .error e
  | .ok pages =>
    match extract_invoices_from_pages classify pages with
    | .error e => .error e
    | .ok extracted =>
      let merged := merge_multipage_invoices extracted
      let deduped := deduplicate_invoices merged
      match format_as_markdown deduped with
      | .error e => .error e
      | .ok md => .ok (deduped, md)

theorem dedupByKeyAux_sublist {α κ : Type} [DecidableEq κ] (key : α → κ) :
    ∀ (l : List α) (seen : List κ), (dedupByKeyAux key seen l).Sublist l := by
  intro l
  induction l with
  | nil => intro seen; simp [dedupByKeyAux]
  | cons x xs ih =>
    intro seen
    simp only [dedupByKeyAux]
    split
    · exact (ih seen).cons x
    · exact (ih (key x :: seen)).cons₂ x

theorem mem_map_key_dedupByKeyAux {α κ : Type} [DecidableEq κ] (key : α → κ) :
    ∀ (l : List α) (seen : List κ) (k : κ),
      k ∈ (dedupByKeyAux key seen l).map key → k ∉ seen := by
  intro l
  induction l with
  | nil => intro seen k h; simp [dedupByKeyAux] at h
  | cons x xs ih =>
    intro seen k h
    by_cases hx : key x ∈ seen
    · rw [dedupByKeyAux, if_pos hx] at h
      exact ih seen k h
    · rw [dedupByKeyAux, if_neg hx] at h
      simp only [List.map_cons, List.mem_cons] at h
      rcases h with h | h
      · subst h; exact hx
      · intro hs
        exact ih _ k h (List.mem_cons_of_mem _ hs)

theorem nodup_map_key_dedupByKeyAux {α κ : Type} [DecidableEq κ] (key : α → κ) :
    ∀ (l : List α) (seen : List κ), ((dedupByKeyAux key seen l).map key).Nodup := by
  intro l
  induction l with
  | nil => intro seen; simp [dedupByKeyAux]
  | cons x xs ih =>
    intro seen
    by_cases hx : key x ∈ seen
    · rw [dedupByKeyAux, if_pos hx]
      exact ih seen
    · rw [dedupByKeyAux, if_neg hx]
      simp only [List.map_cons, List.nodup_cons]
      exact ⟨fun hmem =>
        mem_map_key_dedupByKeyAux key xs _ _ hmem (List.mem_cons_self _ _), ih _⟩

theorem dedupByKeyAux_eq_self {α κ : Type} [DecidableEq κ] (key : α → κ) :
    ∀ (l : List α) (seen : List κ),
      (∀ x ∈ l, key x ∉ seen) → ((l.map key).Nodup) →
      dedupByKeyAux key seen l = l := by
  intro l
  induction l with
  | nil => intros; rfl
  | cons x xs ih =>
    intro seen hseen hnd
    have hx : key x ∉ seen := hseen x (List.mem_cons_self _ _)
    rw [dedupByKeyAux, if_neg hx]
    simp only [List.map_cons, List.nodup_cons] at hnd
    congr 1
    apply ih
    · intro y hy
      intro hc
      rcases List.mem_cons.mp hc with hc | hc
      · exact hnd.1 (hc ▸ List.mem_map_of_mem key hy)
      · exact hseen y (List.mem_cons_of_mem _ hy) hc
    · exact hnd.2

theorem dedupByKeyAux_idem {α κ : Type} [DecidableEq κ] (key : α → κ) (l : List α) :
    dedupByKeyAux key [] (dedupByKeyAux key [] l) = dedupByKeyAux key [] l := by
  apply dedupByKeyAux_eq_self
  · intro x _; simp
  · exact nodup_map_key_dedupByKeyAux key l []

theorem keepFirstAux_congr {α κ : Type} [DecidableEq κ] (key : α → κ) :
    ∀ (l : List α) (p q : List κ), (∀ k, k ∈ p ↔ k ∈ q) →
      keepFirstAux key p l = keepFirstAux key q l := by
  intro l
  induction l with
  | nil => intros; rfl
  | cons x xs ih =>
    intro p q hpq
    have hnext : ∀ k, k ∈ p ++ [key x] ↔ k ∈ q ++ [key x] := by
      intro k
      simp only [List.mem_append, List.mem_singleton, hpq k]
    simp only [keepFirstAux]
    by_cases hx : key x ∈ p
    · rw [if_pos hx, if_pos ((hpq _).mp hx)]
      exact ih _ _ hnext
    · rw [if_neg hx, if_neg (fun h => hx ((hpq _).mpr h))]
      rw [ih _ _ hnext]

theorem dedupByKeyAux_eq_keepFirstAux {α κ : Type} [DecidableEq κ] (key : α → κ) :
    ∀ (l : List α) (seen prev : List κ), (∀ k, k ∈ seen ↔ k ∈ prev) →
      dedupByKeyAux key seen l = keepFirstAux key prev l := by
  intro l
  induction l with
  | nil => intros; rfl
  | cons x xs ih =>
    intro seen prev h
    simp only [dedupByKeyAux, keepFirstAux]
    by_cases hx : key x ∈ seen
    · rw [if_pos hx, if_pos ((h _).mp hx)]
      apply ih
      intro k
      constructor
      · intro hk; exact List.mem_append_left _ ((h k).mp hk)
      · intro hk
        rcases List.mem_append.mp hk with hk | hk
        · exact (h k).mpr hk
        · simp only [List.mem_singleton] at hk; subst hk; exact hx
    · rw [if_neg hx, if_neg (fun hc => hx ((h _).mpr hc))]
      congr 1
      apply ih
      intro k
      simp only [List.mem_cons, List.mem_append, List.mem_singleton, h k]
      tauto

theorem dedupByKeyAux_eq_keepFirstByKey {α κ : Type} [DecidableEq κ]
    (key : α → κ) (l : List α) :
    dedupByKeyAux key [] l = keepFirstByKey key l :=
  dedupByKeyAux_eq_keepFirstAux key l [] [] (by simp)

theorem dedupLoop_fst :
    ∀ (l : List Invoice) (seen : List DKey) (acc : List Invoice) (cnt : Nat),
      (dedupLoop seen acc cnt l).1 = acc ++ dedupByKeyAux dedupKey seen l := by
  intro l
  induction l with
  | nil => intros; simp [dedupLoop, dedupByKeyAux]
  | cons x xs ih =>
    intro seen acc cnt
    by_cases hx : dedupKey x ∈ seen
    · simp [dedupLoop, dedupByKeyAux, hx, ih]
    · simp [dedupLoop, dedupByKeyAux, hx, ih]

theorem dedupLoop_snd :
    ∀ (l : List Invoice) (seen : List DKey) (acc : List Invoice) (cnt : Nat),
      (dedupLoop seen acc cnt l).2 + (dedupByKeyAux dedupKey seen l).length =
        cnt + l.length := by
  intro l
  induction l with
  | nil => intros; simp [dedupLoop, dedupByKeyAux]
  | cons x xs ih =>
    intro seen acc cnt
    by_cases hx : dedupKey x ∈ seen
    · rw [dedupLoop, if_pos hx, dedupByKeyAux, if_pos hx]
      rw [ih]
      simp only [List.length_cons]
      omega
    · rw [dedupLoop, if_neg hx, dedupByKeyAux, if_neg hx]
      have := ih (dedupKey x :: seen) (acc ++ [x]) cnt
      simp only [List.length_cons] at this ⊢
      omega

theorem map_fst_addToGroup :
    ∀ (g : List (InvKey × List Invoice)) (k : InvKey) (x : Invoice),
      (addToGroup g k x).map Prod.fst =
        if k ∈ g.map Prod.fst then g.map Prod.fst
        else g.map Prod.fst ++ [k] := by
  intro g
  induction g with
  | nil => intros; simp [addToGroup]
  | cons p rest ih =>
    intro k x
    obtain ⟨k0, l0⟩ := p
    by_cases hk : k0 = k
    · subst hk
      simp [addToGroup]
    · simp only [addToGroup, if_neg hk, List.map_cons, ih]
      by_cases hm : k ∈ rest.map Prod.fst
      · rw [if_pos hm, if_pos (by simp [hm])]
      · rw [if_neg hm,
          if_neg (by simp only [List.mem_cons]; push_neg; exact ⟨Ne.symm hk, hm⟩)]
        simp

theorem flatten_addToGroup_perm :
    ∀ (g : List (InvKey × List Invoice)) (k : InvKey) (x : Invoice),
      ((addToGroup g k x).map Prod.snd).flatten.Perm
        (x :: (g.map Prod.snd).flatten) := by
  intro g
  induction g with
  | nil => intros; simp [addToGroup]
  | cons p rest ih =>
    intro k x
    obtain ⟨k0, l0⟩ := p
    by_cases hk : k0 = k
    · subst hk
      simp only [addToGroup, if_true]
      simp only [List.map_cons, List.flatten_cons, List.append_assoc,
        List.singleton_append]
      exact List.perm_middle
    · simp only [addToGroup]
      rw [if_neg hk]
      simp only [List.map_cons, List.flatten_cons]
      exact ((ih k x).append_left l0).trans List.perm_middle

theorem flatten_groupByKey_aux :
    ∀ (l : List Invoice) (g : List (InvKey × List Invoice)),
      ((l.foldl (fun g inv => addToGroup g (invKey inv) inv) g).map
        Prod.snd).flatten.Perm ((g.map Prod.snd).flatten ++ l) := by
  intro l
  induction l with
  | nil => intro g; simp
  | cons x xs ih =>
    intro g
    simp only [List.foldl_cons]
    refine (ih _).trans ?_
    refine (((flatten_addToGroup_perm g (invKey x) x).append_right xs)).trans ?_
    simp only [List.cons_append]
    exact List.perm_middle.symm

theorem flatten_groupByKey_perm (l : List Invoice) :
    (((groupByKey l).map Prod.snd).flatten).Perm l := by
  have h := flatten_groupByKey_aux l []
  simpa [groupByKey] using h

/-- The invariant of the grouping loop: every group is nonempty and holds
exactly records whose key is the group key. -/
def GroupInv (g : List (InvKey × List Invoice)) : Prop :=
  ∀ kl ∈ g, kl.2 ≠ [] ∧ ∀ inv ∈ kl.2, invKey inv = kl.1

theorem groupInv_addToGroup :
    ∀ (g : List (InvKey × List Invoice)) (x : Invoice),
      GroupInv g → GroupInv (addToGroup g (invKey x) x) := by
  intro g
  induction g with
  | nil =>
    intro x _ kl hkl
    simp only [addToGroup, List.mem_singleton] at hkl
    subst hkl
    refine ⟨by simp, ?_⟩
    intro inv hinv
    simp only [List.mem_singleton] at hinv
    subst hinv
    rfl
  | cons p rest ih =>
    intro x hg
    obtain ⟨k0, l0⟩ := p
    by_cases hk : k0 = invKey x
    · intro kl hkl
      simp only [addToGroup, if_pos hk] at hkl
      rcases List.mem_cons.mp hkl with h | h
      · subst h
        have h0 := hg (k0, l0) (List.mem_cons_self _ _)
        refine ⟨by simp, ?_⟩
        intro inv hinv
        rcases List.mem_append.mp hinv with h1 | h1
        · exact h0.2 inv h1
        · simp only [List.mem_singleton] at h1
          subst h1
          exact hk.symm
      · exact hg kl (List.mem_cons_of_mem _ h)
    · intro kl hkl
      simp only [addToGroup, if_neg hk] at hkl
      rcases List.mem_cons.mp hkl with h | h
      · subst h
        exact hg (k0, l0) (List.mem_cons_self _ _)
      · exact ih x (fun q hq => hg q (List.mem_cons_of_mem _ hq)) kl h

theorem groupInv_foldl :
    ∀ (l : List Invoice) (g : List (InvKey × List Invoice)),
      GroupInv g →
      GroupInv (l.foldl (fun g inv => addToGroup g (invKey inv) inv) g) := by
  intro l
  induction l with
  | nil => intro g hg; exact hg
  | cons x xs ih =>
    intro g hg
    simp only [List.foldl_cons]
    exact ih _ (groupInv_addToGroup g x hg)

theorem groupInv_groupByKey (l : List Invoice) : GroupInv (groupByKey l) :=
  groupInv_foldl l [] (by intro kl hkl; simp at hkl)

theorem nodup_fst_addToGroup (g : List (InvKey × List Invoice)) (k : InvKey)
    (x : Invoice) (h : (g.map Prod.fst).Nodup) :
    ((addToGroup g k x).map Prod.fst).Nodup := by
  rw [map_fst_addToGroup]
  by_cases hm : k ∈ g.map Prod.fst
  · rw [if_pos hm]; exact h
  · rw [if_neg hm]
    simp [List.nodup_append, h, hm]

theorem nodup_fst_groupByKey_aux :
    ∀ (l : List Invoice) (g : List (InvKey × List Invoice)),
      (g.map Prod.fst).Nodup →
      ((l.foldl (fun g inv => addToGroup g (invKey inv) inv) g).map Prod.fst).Nodup := by
  intro l
  induction l with
  | nil => intro g hg; exact hg
  | cons x xs ih =>
    intro g hg
    simp only [List.foldl_cons]
    exact ih _ (nodup_fst_addToGroup g (invKey x) x hg)

theorem nodup_fst_groupByKey (l : List Invoice) :
    ((groupByKey l).map Prod.fst).Nodup :=
  nodup_fst_groupByKey_aux l [] (by simp)

theorem map_fst_groupByKey_aux :
    ∀ (l : List Invoice) (g : List (InvKey × List Invoice)),
      (l.foldl (fun g inv => addToGroup g (invKey inv) inv) g).map Prod.fst =
        g.map Prod.fst ++ keepFirstAux id (g.map Prod.fst) (l.map invKey) := by
  intro l
  induction l with
  | nil => intro g; simp [keepFirstAux]
  | cons x xs ih =>
    intro g
    simp only [List.foldl_cons, List.map_cons, keepFirstAux, id_eq]
    by_cases hm : invKey x ∈ g.map Prod.fst
    · rw [if_pos hm, ih, map_fst_addToGroup, if_pos hm]
      congr 1
      apply keepFirstAux_congr
      intro k
      simp only [List.mem_append, List.mem_singleton]
      constructor
      · intro hk; exact Or.inl hk
      · intro hk
        rcases hk with hk | hk
        · exact hk
        · subst hk; exact hm
    · rw [if_neg hm, ih, map_fst_addToGroup, if_neg hm]
      simp [List.append_assoc]
theorem map_fst_groupByKey (l : List Invoice) :
    (groupByKey l).map Prod.fst = keepFirstByKey id (l.map invKey) := by
  have h := map_fst_groupByKey_aux l []
  simpa [groupByKey, keepFirstByKey] using h

/-- Specification-worded resolution of `subtotal` and `total`: the last
truthy value in the sequence wins; when no value is truthy the seed (the
first page value) is kept. -/
def lastTruthy (init : PyVal) (vals : List PyVal) : PyVal :=
  (vals.reverse.find? pyTruthy).getD init

theorem find?_append_single {α : Type} (p : α → Bool) (l : List α) (v init : α) :
    ((l ++ [v]).find? p).getD init = (l.find? p).getD (if p v then v else init) := by
  rw [List.find?_append]
  cases hf : l.find? p with
  | some a => simp
  | none =>
    by_cases hv : p v
    · simp [List.find?, hv]
    · have hv' : p v = false := by simp [hv]
      simp [List.find?, hv']

theorem foldl_lastWins :
    ∀ (vals : List PyVal) (init : PyVal),
      vals.foldl (fun a v => if pyTruthy v then v else a) init =
        lastTruthy init vals := by
  intro vals
  induction vals with
  | nil => intro init; simp [lastTruthy]
  | cons v vs ih =>
    intro init
    simp only [List.foldl_cons, ih, lastTruthy, List.reverse_cons]
    rw [find?_append_single]

theorem foldl_lastWins_untruthy :
    ∀ (vals : List PyVal) (init : PyVal), (∀ v ∈ vals, pyTruthy v = false) →
      vals.foldl (fun a v => if pyTruthy v then v else a) init = init := by
  intro vals
  induction vals with
  | nil => intros; rfl
  | cons v vs ih =>
    intro init h
    simp only [List.foldl_cons, h v (List.mem_cons_self _ _), Bool.false_eq_true,
      if_false]
    exact ih init (fun w hw => h w (List.mem_cons_of_mem _ hw))

theorem mergeGroup_subtotal (p0 : Invoice) (rest : List Invoice) :
    (mergeGroup (p0 :: rest)).subtotal =
      lastTruthy p0.subtotal ((p0 :: rest).map (·.subtotal)) := by
  simp only [mergeGroup]
  rw [← foldl_lastWins, List.foldl_map]

theorem mergeGroup_total (p0 : Invoice) (rest : List Invoice) :
    (mergeGroup (p0 :: rest)).total =
      lastTruthy p0.total ((p0 :: rest).map (·.total)) := by
  simp only [mergeGroup]
  rw [← foldl_lastWins, List.foldl_map]

theorem foldl_append_eq_flatten {α β : Type} (f : α → List β) :
    ∀ (l : List α) (acc : List β),
      l.foldl (fun a x => a ++ f x) acc = acc ++ (l.map f).flatten := by
  intro l
  induction l with
  | nil => intro acc; simp
  | cons x xs ih =>
    intro acc
    simp [ih, List.append_assoc]

theorem mergeGroup_line_items (p0 : Invoice) (rest : List Invoice) :
    (mergeGroup (p0 :: rest)).line_items =
      keepFirstByKey itemKey (((p0 :: rest).map (·.line_items)).flatten) := by
  simp only [mergeGroup]
  rw [foldl_append_eq_flatten, List.nil_append, dedupByKeyAux_eq_keepFirstByKey]

theorem extract_skip (classify : String → String → ClassifierOutput) :
    ∀ (xs : List PageData) (pg : PageData) (ys : List PageData),
      (classify pg.image_base64 pg.text = .notJson ∨
        classify pg.image_base64 pg.text = .otherError) →
      extract_invoices_from_pages classify (xs ++ pg :: ys) =
        extract_invoices_from_pages classify (xs ++ ys) := by
  intro xs
  induction xs with
  | nil =>
    intro pg ys h
    rcases h with h | h <;>
      simp [extract_invoices_from_pages, h, call_ollama, nonInvoiceObj]
  | cons x xs ih =>
    intro pg ys h
    simp only [List.cons_append, extract_invoices_from_pages]
    cases hco : call_ollama (classify x.image_base64 x.text) with
    | error e => rfl
    | ok o =>
      cases o with
      | nonDict => rfl
      | obj t inv => simp [ih pg ys h]

theorem loadPagesLoop_eq :
    ∀ (l : List PageSource) (acc : List PageData) (idx : Nat),
      loadPagesLoop acc idx l = acc ++ goodPagesFrom idx l := by
  intro l
  induction l with
  | nil => intros; simp [loadPagesLoop, goodPagesFrom]
  | cons p rest ih =>
    intro acc idx
    cases p with
    | good img txt => simp [loadPagesLoop, goodPagesFrom, pageDataAt, ih]
    | bad => simp [loadPagesLoop, goodPagesFrom, pageDataAt, ih]

/-- A scalar value on which the formatter cannot raise an AttributeError
when it is used as a description: a string or an absent value. -/
def isStrOrNone : PyVal → Bool
  | .vnum _ => false
  | _ => true

theorem fmtLineItem_isOk (it : LineItem)
    (h : isStrOrNone it.description = true) :
    ∃ r, fmtLineItem it = .ok r := by
  cases hd : it.description with
  | vnone => exact ⟨_, by simp only [fmtLineItem, hd, descCell]; rfl⟩
  | vstr s => exact ⟨_, by simp only [fmtLineItem, hd, descCell]; rfl⟩
  | vnum n => rw [hd] at h; simp [isStrOrNone] at h

theorem fmtRows_isOk :
    ∀ (items : List LineItem),
      (∀ it ∈ items, isStrOrNone it.description = true) →
      ∃ r, fmtRows items = .ok r := by
  intro items
  induction items with
  | nil => intro _; exact ⟨"", rfl⟩
  | cons it rest ih =>
    intro h
    obtain ⟨r, hr⟩ := fmtLineItem_isOk it (h it (List.mem_cons_self _ _))
    obtain ⟨rs, hrs⟩ := ih (fun x hx => h x (List.mem_cons_of_mem _ hx))
    exact ⟨r ++ rs, by simp [fmtRows, hr, hrs]⟩

theorem fmtInvoice_isOk (inv : Invoice)
    (h : ∀ it ∈ inv.line_items, isStrOrNone it.description = true) :
    ∃ r, fmtInvoice inv = .ok r := by
  by_cases hl : inv.line_items = []
  · exact ⟨_, by simp only [fmtInvoice, hl, if_pos trivial, if_true]; rfl⟩
  · obtain ⟨r, hr⟩ := fmtRows_isOk inv.line_items h
    exact ⟨_, by simp only [fmtInvoice, hl, hr, if_neg hl, if_false]; rfl⟩

theorem format_as_markdown_isOk :
    ∀ (l : List Invoice),
      (∀ inv ∈ l, ∀ it ∈ inv.line_items, isStrOrNone it.description = true) →
      ∃ s, format_as_markdown l = .ok s := by
  intro l
  induction l with
  | nil => intro _; exact ⟨"", rfl⟩
  | cons inv rest ih =>
    intro h
    obtain ⟨r, hr⟩ := fmtInvoice_isOk inv (h inv (List.mem_cons_self _ _))
    obtain ⟨rs, hrs⟩ := ih (fun x hx => h x (List.mem_cons_of_mem _ hx))
    exact ⟨r ++ rs, by simp [format_as_markdown, hr, hrs]⟩

theorem descTransform_no_pipe (s : String) :
    (descTransform s).data.count '|' = 0 := by
  simp only [descTransform]
  rw [List.count_eq_zero]
  intro hmem
  have hmem2 : '|' ∈ s.data.map substPipeChar :=
    (List.take_subset _ _) hmem
  obtain ⟨c, _, hc⟩ := List.mem_map.mp hmem2
  by_cases h : c = '|'
  · rw [substPipeChar, if_pos h] at hc
    exact absurd hc (by decide)
  · rw [substPipeChar, if_neg h] at hc
    exact h hc

theorem descTransform_length_le (s : String) :
    (descTransform s).length ≤ 50 := by
  have : (descTransform s).length = ((s.data.map substPipeChar).take 50).length :=
    rfl
  rw [this]
  exact List.length_take_le _ _

theorem mergeGroup_subtotal_untruthy (p0 : Invoice) (rest : List Invoice)
    (h : ∀ p ∈ p0 :: rest, pyTruthy p.subtotal = false) :
    (mergeGroup (p0 :: rest)).subtotal = p0.subtotal := by
  rw [mergeGroup_subtotal, lastTruthy]
  have hf : ((p0 :: rest).map (·.subtotal)).reverse.find? pyTruthy = none := by
    rw [List.find?_eq_none]
    intro v hv
    rw [List.mem_reverse] at hv
    obtain ⟨p, hp, rfl⟩ := List.mem_map.mp hv
    simp [h p hp]
  rw [hf]
  rfl

theorem mergeGroup_total_untruthy (p0 : Invoice) (rest : List Invoice)
    (h : ∀ p ∈ p0 :: rest, pyTruthy p.total = false) :
    (mergeGroup (p0 :: rest)).total = p0.total := by
  rw [mergeGroup_total, lastTruthy]
  have hf : ((p0 :: rest).map (·.total)).reverse.find? pyTruthy = none := by
    rw [List.find?_eq_none]
    intro v hv
    rw [List.mem_reverse] at hv
    obtain ⟨p, hp, rfl⟩ := List.mem_map.mp hv
    simp [h p hp]
  rw [hf]
  rfl

/-- The normalization that the specification attributes to the grouping key:
a missing value and the empty string are both read as the empty string. -/
def normalizeEmpty (v : PyVal) : PyVal :=
  if v = .vnone then .vstr "" else v

/-- Specification-worded grouping key under the claimed normalization of
missing values to the empty string. -/
def normKey (inv : Invoice) : InvKey :=
  (normalizeEmpty inv.invoice_num, normalizeEmpty inv.vendor_name,
    normalizeEmpty inv.invoice_date)

/-- A page record whose invoice number is missing. -/
def cxMissing : Invoice :=
  { vendor_name := .vstr "Acme"
    invoice_date := .vstr "2024-01-01"
    source_page := 1 }

/-- A page record whose invoice number is the empty string. -/
def cxEmpty : Invoice :=
  { invoice_num := .vstr ""
    vendor_name := .vstr "Acme"
    invoice_date := .vstr "2024-01-01"
    source_page := 2 }

/-- C1 counterexample: a record with a missing invoice number and a record
with an empty-string invoice number have equal keys under the claimed
normalization, yet `merge_multipage_invoices` gives them distinct keys and
emits two merged records instead of one: missing and empty-string key
values are not treated as equal by the code. -/
theorem c1_counterexample :
    normKey cxMissing = normKey cxEmpty ∧
    invKey cxMissing ≠ invKey cxEmpty ∧
    (merge_multipage_invoices [cxMissing, cxEmpty]).length = 2 := by
  decide

/-- C1 (amended: missing values are kept as `None` and are distinct from
empty strings in the key): `merge_multipage_invoices` groups the input by
the exact key `(invoice_num, vendor_name, invoice_date)`; the groups
partition the input, every group holds exactly the records carrying its
key, each distinct key has exactly one group, keys appear in first-seen
order, and one merged record is emitted per group. -/
theorem c1_grouping (l : List Invoice) :
    (((groupByKey l).map Prod.snd).flatten).Perm l ∧
    (∀ g ∈ groupByKey l, g.2 ≠ [] ∧ ∀ inv ∈ g.2, invKey inv = g.1) ∧
    ((groupByKey l).map Prod.fst).Nodup ∧
    (groupByKey l).map Prod.fst = keepFirstByKey id (l.map invKey) ∧
    (merge_multipage_invoices l).length = (groupByKey l).length :=
  ⟨flatten_groupByKey_perm l, groupInv_groupByKey l, nodup_fst_groupByKey l,
    map_fst_groupByKey l, by simp [merge_multipage_invoices]⟩

/-- C1 witness: the grouping facts evaluated on a concrete two-record
input forming a single group. -/
theorem c1_grouping_witness :
    (((groupByKey [cxMissing, cxEmpty]).map Prod.snd).flatten).Perm
      [cxMissing, cxEmpty] ∧
    ((invKey cxMissing, [cxMissing]).2 ≠ [] ∧
      ∀ inv ∈ (invKey cxMissing, [cxMissing]).2,
        invKey inv = (invKey cxMissing, [cxMissing]).1) :=
  ⟨(c1_grouping [cxMissing, cxEmpty]).1,
    (c1_grouping [cxMissing, cxEmpty]).2.1 (invKey cxMissing, [cxMissing])
      (by decide)⟩

/-- A concrete page record handed to the extractor. -/
def badPage : PageData := { page_num := 1, image_base64 := "img", text := "txt" }

/-- C2 counterexample: classifier output that parses as JSON but is not an
object (so it cannot be parsed as the expected structured invoice shape)
makes the ingestion stage raise an AttributeError that aborts the whole
pipeline, instead of being treated as NonInvoice. -/
theorem c2_counterexample :
    extract_invoices_from_pages (fun _ _ => .jsonNonDict) [badPage] =
      .error attrErrMsg ∧
    process_invoice_pdf (.pages [.good "img" (some "txt")])
      (fun _ _ => .jsonNonDict) = .error attrErrMsg :=
  ⟨rfl, rfl⟩

/-- C2 (amended: classifier output that fails JSON parsing, or any per-call
error other than a connection failure, is treated as NonInvoice and
excludes only that page without raising; output that parses as JSON but is
not an object instead raises and aborts the pipeline): `call_ollama` maps
both failure kinds to the non-invoice marker, and extraction on a page list
containing such a page equals extraction with that page removed. -/
theorem c2_malformed_downgraded :
    call_ollama .notJson = .ok nonInvoiceObj ∧
    call_ollama .otherError = .ok nonInvoiceObj ∧
    ∀ (classify : String → String → ClassifierOutput) (xs : List PageData)
      (pg : PageData) (ys : List PageData),
      (classify pg.image_base64 pg.text = .notJson ∨
        classify pg.image_base64 pg.text = .otherError) →
      extract_invoices_from_pages classify (xs ++ pg :: ys) =
        extract_invoices_from_pages classify (xs ++ ys) :=
  ⟨rfl, rfl, fun classify xs pg ys h => extract_skip classify xs pg ys h⟩

/-- The classifier used by the C2 witness: unparsable output for the page
whose image is `bad`, a well-formed invoice for every other page. -/
def wClassify : String → String → ClassifierOutput := fun img _ =>
  if img = "bad" then .notJson else .jsonDict (some "invoice") {}

/-- A page with well-formed classifier output. -/
def wPageGood : PageData := { page_num := 1, image_base64 := "good", text := "t" }

/-- A page with unparsable classifier output. -/
def wPageBad : PageData := { page_num := 2, image_base64 := "bad", text := "t" }

/-- C2 witness: dropping the unparsable page from a concrete two-page input
leaves extraction unchanged. -/
theorem c2_malformed_downgraded_witness :
    extract_invoices_from_pages wClassify ([wPageGood] ++ wPageBad :: []) =
      extract_invoices_from_pages wClassify ([wPageGood] ++ []) :=
  c2_malformed_downgraded.2.2 wClassify [wPageGood] wPageBad []
    (Or.inl (by decide))

/-- First line item of scenario A, page 1. -/
def itA : LineItem := { description := .vstr "widget A", quantity := .vnum 1 }

/-- Second line item of scenario A, page 1. -/
def itB : LineItem := { description := .vstr "widget B", quantity := .vnum 2 }

/-- The line item of scenario A, page 2. -/
def itC : LineItem := { description := .vstr "widget C", quantity := .vnum 3 }

/-- Scenario A, page 1: two line items, zero total. -/
def scnA1 : Invoice :=
  { invoice_num := .vstr "INV-1"
    vendor_name := .vstr "Acme"
    invoice_date := .vstr "2024-01-01"
    line_items := [itA, itB]
    subtotal := .vnum 0
    total := .vnum 0
    source_page := 1 }

/-- Scenario A, page 2: one line item, total 1180. -/
def scnA2 : Invoice :=
  { invoice_num := .vstr "INV-1"
    vendor_name := .vstr "Acme"
    invoice_date := .vstr "2024-01-01"
    line_items := [itC]
    total := .vnum 1180
    source_page := 2 }

/-- C3: within each merged group, `subtotal` and `total` are overwritten by
each page value exactly when it is truthy (non-empty, non-zero), in page
order, so the last page supplying a value wins; in scenario A the merged
group has 3 line items and total 1180. -/
theorem c3_last_wins :
    (∀ (l : List Invoice) (g : InvKey × List Invoice) (p0 : Invoice)
        (rest : List Invoice), g ∈ groupByKey l → g.2 = p0 :: rest →
      (mergeGroup g.2).subtotal =
        lastTruthy p0.subtotal (g.2.map (·.subtotal)) ∧
      (mergeGroup g.2).total = lastTruthy p0.total (g.2.map (·.total))) ∧
    (merge_multipage_invoices [scnA1, scnA2]).length = 1 ∧
    ((merge_multipage_invoices [scnA1, scnA2]).headD {}).line_items.length = 3 ∧
    ((merge_multipage_invoices [scnA1, scnA2]).headD {}).total = .vnum 1180 := by
  refine ⟨?_, by decide, by decide, by decide⟩
  intro l g p0 rest _ hcons
  rw [hcons]
  exact ⟨mergeGroup_subtotal p0 rest, mergeGroup_total p0 rest⟩

/-- C3 witness: the last-wins rule evaluated on the concrete scenario A
group. -/
theorem c3_last_wins_witness :
    (mergeGroup [scnA1, scnA2]).subtotal =
      lastTruthy scnA1.subtotal ([scnA1, scnA2].map (·.subtotal)) ∧
    (mergeGroup [scnA1, scnA2]).total =
      lastTruthy scnA1.total ([scnA1, scnA2].map (·.total)) :=
  c3_last_wins.1 [scnA1, scnA2] (invKey scnA1, [scnA1, scnA2]) scnA1 [scnA2]
    (by decide) rfl

/-- C4: every merged group carries the concatenation of its pages' line
items in page order deduplicated by the structural key with the first
occurrence kept, and no two line items of any `merge_multipage_invoices`
output share a `(description, hsn_sac, quantity, rate)` tuple. -/
theorem c4_line_item_dedup (l : List Invoice) :
    (∀ g ∈ groupByKey l,
      (mergeGroup g.2).line_items =
        keepFirstByKey itemKey ((g.2.map (·.line_items)).flatten)) ∧
    (∀ m ∈ merge_multipage_invoices l, ((m.line_items).map itemKey).Nodup) := by
  constructor
  · intro g hg
    obtain ⟨p0, rest, hcons⟩ :=
      List.exists_cons_of_ne_nil ((groupInv_groupByKey l g hg).1)
    rw [hcons]
    exact mergeGroup_line_items p0 rest
  · intro m hm
    obtain ⟨g, hg, hgm⟩ := List.mem_map.mp hm
    obtain ⟨p0, rest, hcons⟩ :=
      List.exists_cons_of_ne_nil ((groupInv_groupByKey l g hg).1)
    subst hgm
    rw [hcons]
    simp only [mergeGroup]
    exact nodup_map_key_dedupByKeyAux itemKey _ []

/-- C4 witness: the line-item dedup equation evaluated on the concrete
scenario A group. -/
theorem c4_line_item_dedup_witness :
    (mergeGroup [scnA1, scnA2]).line_items =
      keepFirstByKey itemKey (([scnA1, scnA2].map (·.line_items)).flatten) :=
  (c4_line_item_dedup [scnA1, scnA2]).1 (invKey scnA1, [scnA1, scnA2])
    (by decide)

/-- C5: `deduplicate_invoices` is idempotent. -/
theorem c5_dedup_idempotent (l : List Invoice) :
    deduplicate_invoices (deduplicate_invoices l) = deduplicate_invoices l := by
  have h1 : ∀ m : List Invoice,
      deduplicate_invoices m = dedupByKeyAux dedupKey [] m := by
    intro m
    rw [deduplicate_invoices, dedupLoop_fst]
    simp
  simp only [h1]
  exact dedupByKeyAux_idem dedupKey l

/-- C6: `deduplicate_invoices` keeps exactly the first invoice for each
`(invoice_num, vendor_name, invoice_date, total)` key in input order, its
output is a subsequence of the input, and the number of dropped invoices
equals the duplicate count. -/
theorem c6_dedup_first_seen (l : List Invoice) :
    deduplicate_invoices l = keepFirstByKey dedupKey l ∧
    (deduplicate_invoices l).Sublist l ∧
    (deduplicate_invoices l).length + duplicates_count l = l.length := by
  have h1 : deduplicate_invoices l = dedupByKeyAux dedupKey [] l := by
    rw [deduplicate_invoices, dedupLoop_fst]
    simp
  refine ⟨?_, ?_, ?_⟩
  · rw [h1, dedupByKeyAux_eq_keepFirstByKey]
  · rw [h1]
    exact dedupByKeyAux_sublist dedupKey l []
  · have h2 := dedupLoop_snd l [] [] 0
    rw [duplicates_count, h1]
    omega

/-- A line item whose `unit` field contains the table delimiter. -/
def pipeItem : LineItem :=
  { description := .vstr "x"
    hsn_sac := .vstr "y"
    quantity := .vnum 1
    rate := .vnum 2
    unit := .vstr "a|b"
    amount := .vnum 0 }

/-- C7 counterexample: a `unit` value containing the table delimiter is
inserted verbatim, so the rendered row carries 8 delimiter characters
instead of the 7 structural ones of a six-column row, and the inserted
`unit` text still contains the delimiter: not every free-text field has
the delimiter substituted. -/
theorem c7_counterexample :
    fmtLineItem pipeItem = .ok "| x | y | 1 | 2 | a|b | 0.00 |\n" ∧
    ("| x | y | 1 | 2 | a|b | 0.00 |\n").data.count '|' = 8 ∧
    (pyStr (pyGetD pipeItem.unit (.vstr ""))).data.count '|' = 1 := by
  refine ⟨rfl, by decide, by decide⟩

/-- C7 (amended: only the description field has the table delimiter
substituted and is truncated to 50 characters; `hsn_sac` and `unit` are
inserted verbatim): the rendered description cell contains no delimiter
and has at most 50 characters. -/
theorem c7_description_escaped (s : String) :
    descCell (.vstr s) = .ok (descTransform s) ∧
    (descTransform s).data.count '|' = 0 ∧
    (descTransform s).length ≤ 50 :=
  ⟨rfl, descTransform_no_pipe s, descTransform_length_le s⟩

/-- C8: a monetary field whose numeric coercion fails is rendered as its
raw string representation (with the currency prefix where the code adds
one), and the formatter never raises on any invoice sequence whose
descriptions are strings or absent, so a coercion failure never aborts the
report. -/
theorem c8_coercion_fallback :
    (∀ v : PyVal, pyFloatOfVal v = none →
      amountCell v = pyStr v ∧ rupeeCell v = "₹" ++ pyStr v) ∧
    (∀ l : List Invoice,
      (∀ inv ∈ l, ∀ it ∈ inv.line_items, isStrOrNone it.description = true) →
      ∃ s, format_as_markdown l = .ok s) := by
  constructor
  · intro v hv
    constructor
    · simp only [amountCell, hv]
    · simp only [rupeeCell, hv]
  · exact format_as_markdown_isOk

/-- The scenario E line item: a non-numeric `amount` string. -/
def eItem : LineItem := { description := .vstr "thing", amount := .vstr "abc" }

/-- The scenario E invoice. -/
def eInv : Invoice :=
  { invoice_num := .vstr "INV-9"
    vendor_name := .vstr "Acme"
    line_items := [eItem]
    total := .vstr "abc" }

/-- C8 witness: the fallback evaluated at the non-numeric string `abc` and
the whole report rendered on the concrete scenario E invoice. -/
theorem c8_coercion_fallback_witness :
    (amountCell (.vstr "abc") = pyStr (.vstr "abc") ∧
      rupeeCell (.vstr "abc") = "₹" ++ pyStr (.vstr "abc")) ∧
    ∃ s, format_as_markdown [eInv] = .ok s :=
  ⟨c8_coercion_fallback.1 (.vstr "abc") (by decide),
    c8_coercion_fallback.2 [eInv] (by decide)⟩

/-- C9: a page whose raw material cannot be obtained is excluded while
loading continues with the remaining pages (page numbers keep their
original positions), a source document that cannot be opened raises the
single fatal load error, and the whole pipeline returns that single error
regardless of the classifier when the document cannot be opened. -/
theorem c9_failure_partitioning :
    (∀ l : List PageSource,
      load_and_split_pdf (.pages l) = .ok (goodPagesFrom 0 l)) ∧
    load_and_split_pdf .openFail = .error loadFailMsg ∧
    ∀ classify : String → String → ClassifierOutput,
      process_invoice_pdf .openFail classify = .error loadFailMsg := by
  refine ⟨?_, rfl, fun _ => rfl⟩
  intro l
  simp only [load_and_split_pdf]
  rw [loadPagesLoop_eq]
  simp

/-- C10: when no page of a merged group supplies a truthy subtotal or
total, the merged record keeps the first page's subtotal and total
unchanged (the merged record is seeded from the first page and only truthy
values overwrite it), and the merged record is in the merge output. -/
theorem c10_first_page_totals_retained
    (l : List Invoice) (g : InvKey × List Invoice) (p0 : Invoice)
    (rest : List Invoice) (hg : g ∈ groupByKey l) (hcons : g.2 = p0 :: rest)
    (hst : ∀ p ∈ g.2, pyTruthy p.subtotal = false)
    (htot : ∀ p ∈ g.2, pyTruthy p.total = false) :
    (mergeGroup g.2).subtotal = p0.subtotal ∧
    (mergeGroup g.2).total = p0.total ∧
    mergeGroup g.2 ∈ merge_multipage_invoices l := by
  rw [hcons] at hst htot ⊢
  refine ⟨mergeGroup_subtotal_untruthy p0 rest hst,
    mergeGroup_total_untruthy p0 rest htot, ?_⟩
  rw [← hcons]
  exact List.mem_map_of_mem (fun g => mergeGroup g.2) hg

/-- First page of the C10 witness group: zero subtotal, missing total. -/
def w10a : Invoice :=
  { invoice_num := .vstr "INV-7"
    vendor_name := .vstr "Beta"
    invoice_date := .vstr "2024-02-02"
    subtotal := .vnum 0
    source_page := 1 }

/-- Second page of the C10 witness group: empty subtotal, zero total. -/
def w10b : Invoice :=
  { invoice_num := .vstr "INV-7"
    vendor_name := .vstr "Beta"
    invoice_date := .vstr "2024-02-02"
    subtotal := .vstr ""
    total := .vnum 0
    source_page := 2 }

/-- C10 witness: a concrete group whose pages carry only falsy subtotal
and total values (0, the empty string, absent) keeps the first page's
values. -/
theorem c10_first_page_totals_retained_witness :
    (mergeGroup [w10a, w10b]).subtotal = w10a.subtotal ∧
    (mergeGroup [w10a, w10b]).total = w10a.total ∧
    mergeGroup [w10a, w10b] ∈ merge_multipage_invoices [w10a, w10b] :=
  c10_first_page_totals_retained [w10a, w10b] (invKey w10a, [w10a, w10b])
    w10a [w10b] (by decide) rfl (by decide) (by decide)
